import Mathlib

/-!
Verification of the TimeLapseCam model-export path.

The repository's sole source file, src/Assets/export_model.py, loads a
pretrained model from the fixed weight file and invokes a single export call
with constant arguments.  The export/simplify engine that call invokes (graph
IR, shape generalizer, simplification pass pipeline, format encoder, export
orchestrator) is library machinery not present in the repository; it is
modelled here from the specification, component by component, and the spec's
claims are settled against that model.  The script itself is embedded
directly from the source.
-/

namespace TLC

/-! ### The export script, embedded from src/Assets/export_model.py -/

/-- Arguments of the export call in the script. -/
structure ExportArgs where
  format : String
  dynamic : Bool
  simplify : Bool
deriving DecidableEq

/-- Observable actions the script performs, in order. -/
inductive ScriptEvent where
  | loadModel (weights : String)
  | exportModel (args : ExportArgs)
deriving DecidableEq

/-- Embedded from src/Assets/export_model.py: the script reads neither
command-line arguments, nor environment variables, nor standard input; it
performs exactly one model load from the hard-coded weight file and exactly
one export call with constant keyword arguments. -/
def scriptRun (_argv : List String) (_environ : List (String × String))
    (_stdin : List String) : List ScriptEvent :=
  [ScriptEvent.loadModel "yolov8n.pt",
   ScriptEvent.exportModel { format := "onnx", dynamic := true, simplify := true }]

/-- Recognizer for export events, used to count export calls. -/
def isExportEvent : ScriptEvent → Bool
  | ScriptEvent.exportModel _ => true
  | _ => false

/-! ### Graph intermediate representation

Modelled from the spec: the Graph IR (typed node/edge structure capturing
operators, tensors and shapes) is not part of the repository source; it is
reconstructed from section 3 of the specification. -/

/-- A tensor dimension: a concrete extent, a named symbolic axis, or unknown
(the safe degradation for data-dependent shapes). -/
inductive Dim where
  | concrete (n : Nat)
  | sym (name : String)
  | unknown
deriving DecidableEq

/-- A shape is an ordered sequence of dimensions. -/
abbrev Shape := List Dim

/-- Element data types of tensors. -/
inductive DType where
  | float32
  | float16
  | int64
  | int32
  | boolean
deriving DecidableEq

/-- A tensor type: element data type plus shape. -/
structure TensorType where
  dtype : DType
  shape : Shape
deriving DecidableEq

/-- The closed, versioned operator set of the model. -/
inductive OpKind where
  | mul
  | add
  | relu
  | reshape
  | dataDep
  | fusedMulAdd
deriving DecidableEq

/-- Attribute values attached to a node (tagged variants). -/
inductive AttrValue where
  | scalar (i : Int)
  | intList (l : List Int)
deriving DecidableEq

/-- An operator instance: stable identifier, operator kind, ordered input and
output tensor references, and named attributes. -/
structure Node where
  nid : Nat
  kind : OpKind
  inputs : List Nat
  outputs : List Nat
  attrs : List (String × AttrValue)
deriving DecidableEq

/-- A constant tensor: concrete shape plus embedded literal data.  Literal
data is modelled with exact integers so that constant folding and runtime
execution share one exact arithmetic and equality of artifacts is
decidable. -/
structure ConstTensor where
  shape : List Nat
  data : List Int
deriving DecidableEq

/-- A computation graph: nodes in stable topological order, designated graph
inputs and outputs, and registered constants. -/
structure Graph where
  nodes : List Node
  inputs : List (Nat × TensorType)
  outputs : List Nat
  consts : List (Nat × ConstTensor)
deriving DecidableEq

/-! ### Runtime kernel semantics

Modelled from the spec: constant folding must use the exact same arithmetic
semantics as runtime execution, so a single kernel function is shared by the
runtime evaluator and the constant-folding pass. -/

/-- Look up the literal attribute named a in an attribute list. -/
def lookupAttr (attrs : List (String × AttrValue)) (a : String) : Option AttrValue :=
  (attrs.find? (fun p => decide (p.1 = a))).map Prod.snd

/-- The arithmetic kernel shared by runtime execution and constant folding:
elementwise multiply, add and relu, reshape per its literal attribute, the
data-dependent operator (compress to the nonzero entries), and the fused
multiply-add. -/
def kernelSem : OpKind → List (String × AttrValue) → List ConstTensor →
    Option (List ConstTensor)
  | OpKind.mul, _, [a, b] =>
      if a.shape = b.shape then
        some [⟨a.shape, List.zipWith (fun x y => x * y) a.data b.data⟩]
      else none
  | OpKind.add, _, [a, b] =>
      if a.shape = b.shape then
        some [⟨a.shape, List.zipWith (fun x y => x + y) a.data b.data⟩]
      else none
  | OpKind.relu, _, [a] =>
      some [⟨a.shape, a.data.map (fun q => max q 0)⟩]
  | OpKind.reshape, attrs, [a] =>
      match lookupAttr attrs "shape" with
      | some (AttrValue.intList l) =>
          let tgt := l.map Int.toNat
          if tgt.prod = a.shape.prod then some [⟨tgt, a.data⟩] else none
      | _ => none
  | OpKind.dataDep, _, [a] =>
      let nz := a.data.filter (fun q => decide (q ≠ 0))
      some [⟨[nz.length], nz⟩]
  | OpKind.fusedMulAdd, _, [a, b, c] =>
      if a.shape = b.shape ∧ b.shape = c.shape then
        some [⟨a.shape,
          List.zipWith (fun x y => x + y) (List.zipWith (fun x y => x * y) a.data b.data) c.data⟩]
      else none
  | _, _, _ => none

/-- Look up a registered constant by tensor identifier. -/
def lookupConst (cs : List (Nat × ConstTensor)) (t : Nat) : Option ConstTensor :=
  (cs.find? (fun p => decide (p.1 = t))).map Prod.snd

/-- Look up every tensor in a list of identifiers; fails if any is missing. -/
def lookupAll (cs : List (Nat × ConstTensor)) : List Nat → Option (List ConstTensor)
  | [] => some []
  | t :: ts =>
      match lookupConst cs t, lookupAll cs ts with
      | some v, some vs => some (v :: vs)
      | _, _ => none

/-- Runtime execution of one node in a constant environment: evaluate the
shared kernel on the node's inputs and pair the results with the node's
output identifiers. -/
def evalNode (cs : List (Nat × ConstTensor)) (n : Node) :
    Option (List (Nat × ConstTensor)) :=
  match lookupAll cs n.inputs with
  | none => none
  | some ins =>
      match kernelSem n.kind n.attrs ins with
      | none => none
      | some outs =>
          if n.outputs.length = outs.length then some (n.outputs.zip outs)
          else none

/-! ### Simplification passes

Modelled from the spec: the Simplification Pass Pipeline (constant folding,
redundant-node elimination, operator fusion, dead-node elimination, iterated
to a fixpoint under an iteration cap) is not part of the repository source;
it is reconstructed from section 4.3 of the specification. -/

/-- Result of one simplification pass: either no change, or a new graph with
a positive change count. -/
inductive PassResult where
  | noChange
  | changed (g : Graph) (count : Nat)

/-- Read a pass result as a graph/count pair, the input graph standing for
the unchanged case. -/
def PassResult.toPair (g : Graph) : PassResult → Graph × Nat
  | PassResult.noChange => (g, 0)
  | PassResult.changed g' c => (g', c)

/-- One sweep of constant folding over the node list: a node all of whose
inputs are registered constants is evaluated with the runtime kernel and
removed, its outputs registered as new constants. -/
def constFoldAux : List Node → List (Nat × ConstTensor) →
    List Node × List (Nat × ConstTensor) × Nat
  | [], cs => ([], cs, 0)
  | n :: rest, cs =>
      match evalNode cs n with
      | some newcs =>
          let r := constFoldAux rest (cs ++ newcs)
          (r.1, r.2.1, r.2.2 + 1)
      | none =>
          let r := constFoldAux rest cs
          (n :: r.1, r.2.1, r.2.2)

/-- The constant-folding pass. -/
def constFold (g : Graph) : PassResult :=
  let r := constFoldAux g.nodes g.consts
  if r.2.2 = 0 then PassResult.noChange
  else PassResult.changed { g with nodes := r.1, consts := r.2.1 } r.2.2

/-- Apply a tensor-identifier substitution, used when rewiring consumers. -/
def substTensor (s : List (Nat × Nat)) (t : Nat) : Nat :=
  match s.find? (fun p => decide (p.1 = t)) with
  | some p => p.2
  | none => t

/-- Rewire a node's inputs through a substitution. -/
def rewire (s : List (Nat × Nat)) (n : Node) : Node :=
  { n with inputs := n.inputs.map (substTensor s) }

/-- Find the first pair of redundant nodes: identical operator kind,
identical attributes and identical input tensors. -/
def findDup : List Node → Option (Node × Node)
  | [] => none
  | n :: rest =>
      match rest.find? (fun m =>
          decide (m.kind = n.kind ∧ m.attrs = n.attrs ∧ m.inputs = n.inputs)) with
      | some m => some (n, m)
      | none => findDup rest

/-- The redundant-node-elimination pass: merge one duplicate pair per sweep,
rewiring all consumers of the duplicate's outputs to the survivor. -/
def redundantElim (g : Graph) : PassResult :=
  match findDup g.nodes with
  | none => PassResult.noChange
  | some (keep, dup) =>
      let s := dup.outputs.zip keep.outputs
      let nodes' := (g.nodes.erase dup).map (rewire s)
      PassResult.changed
        { g with nodes := nodes', outputs := g.outputs.map (substTensor s) } 1

/-- Consumers of a tensor within a node list. -/
def consumersOf (ns : List Node) (t : Nat) : List Node :=
  ns.filter (fun n => decide (t ∈ n.inputs))

/-- Find one fusible adjacent pair: a multiply whose single output feeds
exactly one add and is not a graph output. -/
def findFusePair (g : Graph) : Option (Node × Node × Nat) :=
  g.nodes.findSome? (fun a =>
    if a.kind = OpKind.mul then
      match a.outputs with
      | [t] =>
          match consumersOf g.nodes t with
          | [b] =>
              if b.kind = OpKind.add ∧ t ∉ g.outputs then some (a, b, t)
              else none
          | _ => none
      | _ => none
    else none)

/-- The operator-fusion pass: replace one matched multiply/add pair per sweep
with a single fused multiply-add node. -/
def opFusion (g : Graph) : PassResult :=
  match findFusePair g with
  | none => PassResult.noChange
  | some (a, b, t) =>
      let fused : Node :=
        { nid := a.nid, kind := OpKind.fusedMulAdd,
          inputs := a.inputs ++ b.inputs.filter (fun u => decide (u ≠ t)),
          outputs := b.outputs, attrs := a.attrs ++ b.attrs }
      let nodes' := g.nodes.filterMap (fun n =>
        if n = b then none else if n = a then some fused else some n)
      PassResult.changed { g with nodes := nodes' } 1

/-- Tensors transitively reachable backwards from the graph outputs,
computed consumers-first over the stable topological order. -/
def liveTensors (ns : List Node) (outs : List Nat) : List Nat :=
  ns.reverse.foldl
    (fun live n =>
      if n.outputs.any (fun t => decide (t ∈ live)) then live ++ n.inputs else live)
    outs

/-- The dead-node-elimination pass: drop every node none of whose outputs is
transitively reachable from a graph output. -/
def deadElim (g : Graph) : PassResult :=
  let live := liveTensors g.nodes g.outputs
  let keep := g.nodes.filter (fun n => n.outputs.any (fun t => decide (t ∈ live)))
  if keep.length = g.nodes.length then PassResult.noChange
  else PassResult.changed { g with nodes := keep } (g.nodes.length - keep.length)

/-- The canonical ordered pass sequence of the pipeline. -/
def canonicalPasses : List (Graph → PassResult) :=
  [constFold, redundantElim, opFusion, deadElim]

/-- Run an ordered pass sequence once, threading the graph and summing the
change counts. -/
def runPasses : List (Graph → PassResult) → Graph → Graph × Nat
  | [], g => (g, 0)
  | p :: ps, g =>
      let r1 := PassResult.toPair g (p g)
      let r2 := runPasses ps r1.1
      (r2.1, r1.2 + r2.2)

/-- Iterate the full pass sequence to a fixpoint under an iteration budget:
stop with no warning once an iteration produces zero total changes, or stop
with a warning when the budget is exhausted, returning the last graph. -/
def fixpointIter (ps : List (Graph → PassResult)) : Nat → Graph → Graph × Nat × Bool
  | 0, g => (g, 0, true)
  | Nat.succ fuel, g =>
      let r := runPasses ps g
      if r.2 = 0 then (r.1, 0, false)
      else
        let rest := fixpointIter ps fuel r.1
        (rest.1, r.2 + rest.2.1, rest.2.2)

/-- The configured default for the fixpoint iteration cap. -/
def defaultMaxFixpointIterations : Nat := 100

/-- Report of the simplification stage: total changes applied and whether
the fixpoint-not-reached warning was raised. -/
structure SimpReport where
  totalChanges : Nat
  fixpointWarning : Bool
deriving DecidableEq

/-- The simplification stage: run the canonical pipeline to a fixpoint under
the configured cap; a cap overrun is recorded as a warning in the report,
never as a failure, and the last graph is returned regardless. -/
def simplifyStage (maxIter : Nat) (g : Graph) : Graph × SimpReport :=
  let r := fixpointIter canonicalPasses maxIter g
  (r.1, ⟨r.2.1, r.2.2⟩)

/-- A graph is a pipeline fixpoint when one full pass sequence leaves it
unchanged with zero total changes. -/
def IsFixpoint (g : Graph) : Prop :=
  runPasses canonicalPasses g = (g, 0)

/-- A pass is honest when it never reports a change through the changed
constructor with a change count of zero. -/
def HonestPass (p : Graph → PassResult) : Prop :=
  ∀ g g', p g ≠ PassResult.changed g' 0

/-! ### Shape generalizer

Modelled from the spec: the Shape Generalizer (replacing configured concrete
input dimensions with fresh symbolic axes, propagating shapes forward,
degrading data-dependent shapes to unknown dimensions, and rejecting
conflicting constraints) is not part of the repository source; it is
reconstructed from section 4.2 of the specification. -/

/-- Decidable equality of exceptional results, used by the witnesses. -/
instance {ε α : Type} [DecidableEq ε] [DecidableEq α] : DecidableEq (Except ε α) := fun x y =>
  match x, y with
  | Except.error a, Except.error b =>
      if h : a = b then isTrue (by rw [h]) else isFalse (by intro hc; cases hc; exact h rfl)
  | Except.ok a, Except.ok b =>
      if h : a = b then isTrue (by rw [h]) else isFalse (by intro hc; cases hc; exact h rfl)
  | Except.error _, Except.ok _ => isFalse (by intro hc; cases hc)
  | Except.ok _, Except.error _ => isFalse (by intro hc; cases hc)

/-- The error taxonomy of the export engine. -/
inductive ExportError where
  | malformedGraph
  | unsupportedDynamicAxis
  | unsupportedOperator (k : OpKind)
  | encodingIOFailure
deriving DecidableEq

/-- Dynamic-axis configuration: a mapping from input index and axis index to
a symbolic axis name. -/
abbrev DynAxes := List ((Nat × Nat) × String)

/-- Look up the configured symbolic name for one input axis. -/
def lookupAxis (cfg : DynAxes) (i j : Nat) : Option String :=
  (cfg.find? (fun p => decide (p.1 = (i, j)))).map Prod.snd

/-- Replace the configured concrete dimensions of one input shape with
symbolic axes, recording the traced concrete value as a derived constraint
for each introduced name. -/
def applyAxes (cfg : DynAxes) (i : Nat) : Nat → Shape → Shape × List (String × Nat)
  | _, [] => ([], [])
  | j, d :: ds =>
      let r := applyAxes cfg i (j + 1) ds
      match lookupAxis cfg i j, d with
      | some name, Dim.concrete v => (Dim.sym name :: r.1, (name, v) :: r.2)
      | _, _ => (d :: r.1, r.2)

/-- Generalize every graph input per the dynamic-axis configuration. -/
def generalizeInputs (cfg : DynAxes) (i : Nat) :
    List (Nat × TensorType) → List (Nat × TensorType) × List (String × Nat)
  | [] => ([], [])
  | (t, ty) :: rest =>
      let r0 := applyAxes cfg i 0 ty.shape
      let r := generalizeInputs cfg (i + 1) rest
      ((t, ⟨ty.dtype, r0.1⟩) :: r.1, r0.2 ++ r.2)

/-- A symbolic shape environment: tensor identifier to inferred shape. -/
abbrev ShapeEnv := List (Nat × Shape)

/-- The shape recorded for a tensor, empty if none was inferred. -/
def shapeOf (env : ShapeEnv) (t : Nat) : Shape :=
  match env.find? (fun p => decide (p.1 = t)) with
  | some p => p.2
  | none => []

/-- The inferred shape of a node's first input. -/
def firstInputShape (env : ShapeEnv) (n : Node) : Shape :=
  match n.inputs with
  | [] => []
  | t :: _ => shapeOf env t

/-- Positional unification of a symbolic shape against a literal reshape
target: every position carrying a symbolic axis against a literal extent
derives a concrete constraint for that name. -/
def unifyLiteral : Shape → List Int → List (String × Nat)
  | Dim.sym s :: ds, k :: ks => (s, k.toNat) :: unifyLiteral ds ks
  | _ :: ds, _ :: ks => unifyLiteral ds ks
  | _, _ => []

/-- Symbolic shape inference for one node: elementwise operators preserve
their first input's shape, reshape takes its literal attribute (deriving
constraints by unification), and the data-dependent operator degrades its
output to rank-preserved unknown dimensions instead of failing. -/
def inferNode (env : ShapeEnv) (n : Node) : Shape × List (String × Nat) :=
  match n.kind with
  | OpKind.reshape =>
      match lookupAttr n.attrs "shape" with
      | some (AttrValue.intList l) =>
          (l.map (fun i => Dim.concrete i.toNat), unifyLiteral (firstInputShape env n) l)
      | _ => (firstInputShape env n, [])
  | OpKind.dataDep =>
      ((firstInputShape env n).map (fun _ => Dim.unknown), [])
  | _ => (firstInputShape env n, [])

/-- Propagate symbolic shapes through the node list in topological order,
accumulating every derived constraint. -/
def inferAll (env : ShapeEnv) : List Node → ShapeEnv × List (String × Nat)
  | [] => (env, [])
  | n :: rest =>
      let r0 := inferNode env n
      let r := inferAll (env ++ n.outputs.map (fun t => (t, r0.1))) rest
      (r.1, r0.2 ++ r.2)

/-- Two derived constraints conflict when they bind the same symbolic name
to two distinct concrete values. -/
def hasConflict (cs : List (String × Nat)) : Bool :=
  cs.any (fun a => cs.any (fun b => decide (a.1 = b.1 ∧ a.2 ≠ b.2)))

/-- The concrete shapes of the registered constants, as seed environment. -/
def constShapes (g : Graph) : ShapeEnv :=
  g.consts.map (fun p => (p.1, p.2.shape.map Dim.concrete))

/-- Every constraint the generalizer derives for a graph under a
dynamic-axis configuration: the traced input values plus the constraints of
forward shape inference. -/
def allConstraints (cfg : DynAxes) (g : Graph) : List (String × Nat) :=
  let r0 := generalizeInputs cfg 0 g.inputs
  let r := inferAll (r0.1.map (fun p => (p.1, p.2.shape)) ++ constShapes g) g.nodes
  r0.2 ++ r.2

/-- The shape-generalization stage: replace configured input axes with
symbolic names, infer all downstream shapes, and fail with the
unsupported-dynamic-axis error exactly when two derived concrete values for
one symbolic name disagree. -/
def generalizeStage (cfg : DynAxes) (g : Graph) :
    Except ExportError (Graph × ShapeEnv) :=
  if hasConflict (allConstraints cfg g) then Except.error ExportError.unsupportedDynamicAxis
  else Except.ok ({ g with inputs := (generalizeInputs cfg 0 g.inputs).1 },
    (inferAll ((generalizeInputs cfg 0 g.inputs).1.map (fun p => (p.1, p.2.shape)) ++
      constShapes g) g.nodes).1)

/-- Bind the symbolic axes of a shape to concrete extents; fails on an
unknown dimension or an unbound name. -/
def bindShape (σ : List (String × Nat)) : Shape → Option (List Nat)
  | [] => some []
  | Dim.concrete n :: ds => (bindShape σ ds).map (fun r => n :: r)
  | Dim.sym s :: ds =>
      match (σ.find? (fun p => decide (p.1 = s))).map Prod.snd with
      | some v => (bindShape σ ds).map (fun r => v :: r)
      | none => none
  | Dim.unknown :: _ => none

/-! ### Format encoder

Modelled from the spec: the Format Encoder (serializing the finalized graph
into a flat versioned token stream, failing on operators absent from the
target operator set) and its decoder are not part of the repository source;
they are reconstructed from section 4.4 of the specification. -/

/-- Atoms of the serialized artifact stream. -/
inductive Tok where
  | nat (n : Nat)
  | int (i : Int)
  | str (s : String)
deriving DecidableEq

/-- The schema version of the container format. -/
def schemaVersion : Nat := 1

/-- Length-prefixed encoding of a list. -/
def encList (enc : α → List Tok) (xs : List α) : List Tok :=
  Tok.nat xs.length :: (xs.map enc).flatten

/-- Decode a known number of consecutive elements. -/
def decCount (dec : List Tok → Option (α × List Tok)) :
    Nat → List Tok → Option (List α × List Tok)
  | 0, ts => some ([], ts)
  | Nat.succ k, ts =>
      match dec ts with
      | some (x, ts') =>
          match decCount dec k ts' with
          | some (xs, ts'') => some (x :: xs, ts'')
          | none => none
      | none => none

/-- Decode a length-prefixed list. -/
def decList (dec : List Tok → Option (α × List Tok)) :
    List Tok → Option (List α × List Tok)
  | Tok.nat k :: ts => decCount dec k ts
  | _ => none

/-- Encode a natural number. -/
def encNat (n : Nat) : List Tok := [Tok.nat n]

/-- Decode a natural number. -/
def decNat : List Tok → Option (Nat × List Tok)
  | Tok.nat n :: ts => some (n, ts)
  | _ => none

/-- Encode an integer. -/
def encInt (i : Int) : List Tok := [Tok.int i]

/-- Decode an integer. -/
def decInt : List Tok → Option (Int × List Tok)
  | Tok.int i :: ts => some (i, ts)
  | _ => none

/-- Encode a string. -/
def encStr (s : String) : List Tok := [Tok.str s]

/-- Decode a string. -/
def decStr : List Tok → Option (String × List Tok)
  | Tok.str s :: ts => some (s, ts)
  | _ => none

/-- Encode a dimension, symbolic axis names verbatim. -/
def encDim : Dim → List Tok
  | Dim.concrete n => [Tok.nat 0, Tok.nat n]
  | Dim.sym s => [Tok.nat 1, Tok.str s]
  | Dim.unknown => [Tok.nat 2]

/-- Decode a dimension. -/
def decDim : List Tok → Option (Dim × List Tok)
  | Tok.nat 0 :: Tok.nat n :: ts => some (Dim.concrete n, ts)
  | Tok.nat 1 :: Tok.str s :: ts => some (Dim.sym s, ts)
  | Tok.nat 2 :: ts => some (Dim.unknown, ts)
  | _ => none

/-- Encode an element data type. -/
def encDType : DType → List Tok
  | DType.float32 => [Tok.nat 0]
  | DType.float16 => [Tok.nat 1]
  | DType.int64 => [Tok.nat 2]
  | DType.int32 => [Tok.nat 3]
  | DType.boolean => [Tok.nat 4]

/-- Decode an element data type. -/
def decDType : List Tok → Option (DType × List Tok)
  | Tok.nat 0 :: ts => some (DType.float32, ts)
  | Tok.nat 1 :: ts => some (DType.float16, ts)
  | Tok.nat 2 :: ts => some (DType.int64, ts)
  | Tok.nat 3 :: ts => some (DType.int32, ts)
  | Tok.nat 4 :: ts => some (DType.boolean, ts)
  | _ => none

/-- Encode an operator kind. -/
def encOpKind : OpKind → List Tok
  | OpKind.mul => [Tok.nat 0]
  | OpKind.add => [Tok.nat 1]
  | OpKind.relu => [Tok.nat 2]
  | OpKind.reshape => [Tok.nat 3]
  | OpKind.dataDep => [Tok.nat 4]
  | OpKind.fusedMulAdd => [Tok.nat 5]

/-- Decode an operator kind. -/
def decOpKind : List Tok → Option (OpKind × List Tok)
  | Tok.nat 0 :: ts => some (OpKind.mul, ts)
  | Tok.nat 1 :: ts => some (OpKind.add, ts)
  | Tok.nat 2 :: ts => some (OpKind.relu, ts)
  | Tok.nat 3 :: ts => some (OpKind.reshape, ts)
  | Tok.nat 4 :: ts => some (OpKind.dataDep, ts)
  | Tok.nat 5 :: ts => some (OpKind.fusedMulAdd, ts)
  | _ => none

/-- Encode a tensor type. -/
def encTensorType (ty : TensorType) : List Tok :=
  encDType ty.dtype ++ encList encDim ty.shape

/-- Decode a tensor type. -/
def decTensorType (ts : List Tok) : Option (TensorType × List Tok) :=
  match decDType ts with
  | some (d, ts1) =>
      match decList decDim ts1 with
      | some (sh, ts2) => some (⟨d, sh⟩, ts2)
      | none => none
  | none => none

/-- Encode an attribute value. -/
def encAttrValue : AttrValue → List Tok
  | AttrValue.scalar i => Tok.nat 0 :: encInt i
  | AttrValue.intList l => Tok.nat 1 :: encList encInt l

/-- Decode an attribute value. -/
def decAttrValue : List Tok → Option (AttrValue × List Tok)
  | Tok.nat 0 :: ts =>
      match decInt ts with
      | some (i, ts1) => some (AttrValue.scalar i, ts1)
      | none => none
  | Tok.nat 1 :: ts =>
      match decList decInt ts with
      | some (l, ts1) => some (AttrValue.intList l, ts1)
      | none => none
  | _ => none

/-- Encode a named attribute. -/
def encAttr (p : String × AttrValue) : List Tok :=
  encStr p.1 ++ encAttrValue p.2

/-- Decode a named attribute. -/
def decAttr (ts : List Tok) : Option ((String × AttrValue) × List Tok) :=
  match decStr ts with
  | some (s, ts1) =>
      match decAttrValue ts1 with
      | some (v, ts2) => some ((s, v), ts2)
      | none => none
  | none => none

/-- Encode a node. -/
def encNode (n : Node) : List Tok :=
  encNat n.nid ++ encOpKind n.kind ++ encList encNat n.inputs ++
    encList encNat n.outputs ++ encList encAttr n.attrs

/-- Decode a node. -/
def decNode (ts : List Tok) : Option (Node × List Tok) :=
  match decNat ts with
  | some (i, ts1) =>
      match decOpKind ts1 with
      | some (k, ts2) =>
          match decList decNat ts2 with
          | some (ins, ts3) =>
              match decList decNat ts3 with
              | some (outs, ts4) =>
                  match decList decAttr ts4 with
                  | some (ats, ts5) => some (⟨i, k, ins, outs, ats⟩, ts5)
                  | none => none
              | none => none
          | none => none
      | none => none
  | none => none

/-- Encode a graph input declaration. -/
def encInput (p : Nat × TensorType) : List Tok :=
  encNat p.1 ++ encTensorType p.2

/-- Decode a graph input declaration. -/
def decInput (ts : List Tok) : Option ((Nat × TensorType) × List Tok) :=
  match decNat ts with
  | some (t, ts1) =>
      match decTensorType ts1 with
      | some (ty, ts2) => some ((t, ty), ts2)
      | none => none
  | none => none

/-- Encode one registered constant with its literal data. -/
def encConst (p : Nat × ConstTensor) : List Tok :=
  encNat p.1 ++ encList encNat p.2.shape ++ encList encInt p.2.data

/-- Decode one registered constant. -/
def decConst (ts : List Tok) : Option ((Nat × ConstTensor) × List Tok) :=
  match decNat ts with
  | some (t, ts1) =>
      match decList decNat ts1 with
      | some (sh, ts2) =>
          match decList decInt ts2 with
          | some (d, ts3) => some ((t, ⟨sh, d⟩), ts3)
          | none => none
      | none => none
  | none => none

/-- Serialize the whole graph body. -/
def encGraphBody (g : Graph) : List Tok :=
  encList encNode g.nodes ++ encList encInput g.inputs ++
    encList encNat g.outputs ++ encList encConst g.consts

/-- Parse the whole graph body. -/
def decGraphBody (ts : List Tok) : Option (Graph × List Tok) :=
  match decList decNode ts with
  | some (ns, ts1) =>
      match decList decInput ts1 with
      | some (ins, ts2) =>
          match decList decNat ts2 with
          | some (outs, ts3) =>
              match decList decConst ts3 with
              | some (cs, ts4) => some (⟨ns, ins, outs, cs⟩, ts4)
              | none => none
          | none => none
      | none => none
  | none => none

/-- The target operator set: the kinds the format can represent. -/
abbrev Opset := List OpKind

/-- Operator kinds present in the graph but absent from the target set. -/
def unsupportedKinds (os : Opset) (g : Graph) : List OpKind :=
  (g.nodes.map Node.kind).filter (fun k => decide (k ∉ os))

/-- The format encoder: a pure function of the graph serializing schema
version, operator-set version and the full graph body; fails with the
unsupported-operator error instead of dropping a node whose kind has no
mapping in the target operator set. -/
def encodeGraph (os : Opset) (osv : Nat) (g : Graph) : Except ExportError (List Tok) :=
  match unsupportedKinds os g with
  | [] => Except.ok (Tok.nat schemaVersion :: Tok.nat osv :: encGraphBody g)
  | k :: _ => Except.error (ExportError.unsupportedOperator k)

/-- Decode an artifact back to its graph; fails unless the stream is exactly
one versioned graph body. -/
def decodeGraph : List Tok → Option Graph
  | Tok.nat sv :: Tok.nat _ :: ts =>
      if sv = schemaVersion then
        match decGraphBody ts with
        | some (g, []) => some g
        | _ => none
      else none
  | _ => none

/-- Ambient process state a stateful encoder implementation could consult:
a global numbering counter and an iteration-order seed.  The modelled
encoder is a pure function of the graph and ignores it. -/
structure AmbientState where
  gensymCounter : Nat
  iterationSeed : Nat

/-- The encoder as run inside a process with ambient mutable state: the
output depends only on the operator set, its version and the graph. -/
def encodeGraphRun (amb : AmbientState) (os : Opset) (osv : Nat) (g : Graph) :
    Except ExportError (List Tok) :=
  match amb with
  | _ => encodeGraph os osv g

/-! ### Export orchestrator and stable storage

Modelled from the spec: the Export Orchestrator (sequencing generalization,
simplification and encoding, validating the round-trip, and writing the
artifact to a temporary location renamed only on success) is not part of the
repository source; it is reconstructed from section 4.5 of the
specification. -/

/-- Configuration of one export request. -/
structure ExportConfig where
  dynamicAxes : DynAxes
  simplify : Bool
  maxFixpointIterations : Nat
  targetOpset : Opset
  opsetVersion : Nat

/-- The structured report returned on success. -/
structure ExportReport where
  totalChanges : Nat
  fixpointWarning : Bool
  finalNodeCount : Nat
  artifactSize : Nat
deriving DecidableEq

/-- Generalize then, when requested, simplify: the graph the encoder will
receive, together with the simplification report.  The simplification stage
cannot fail; a fixpoint-cap overrun only sets the warning flag. -/
def stagedGraph (cfg : ExportConfig) (g : Graph) :
    Except ExportError (Graph × SimpReport) :=
  match generalizeStage cfg.dynamicAxes g with
  | Except.error e => Except.error e
  | Except.ok (g1, _) =>
      if cfg.simplify then Except.ok (simplifyStage cfg.maxFixpointIterations g1)
      else Except.ok (g1, ⟨0, false⟩)

/-- Encode the staged graph and validate the artifact by decoding it and
checking it reproduces the graph, before declaring success. -/
def encodeStage (cfg : ExportConfig) (g2 : Graph) (rep : SimpReport) :
    Except ExportError (List Tok × ExportReport) :=
  match encodeGraph cfg.targetOpset cfg.opsetVersion g2 with
  | Except.error e => Except.error e
  | Except.ok art =>
      match decodeGraph art with
      | some g3 =>
          if g3 = g2 then
            Except.ok (art, ⟨rep.totalChanges, rep.fixpointWarning, g2.nodes.length, art.length⟩)
          else Except.error ExportError.malformedGraph
      | none => Except.error ExportError.malformedGraph

/-- The export orchestrator: every stage failure aborts the whole export. -/
def orchestrate (cfg : ExportConfig) (g : Graph) :
    Except ExportError (List Tok × ExportReport) :=
  match stagedGraph cfg g with
  | Except.error e => Except.error e
  | Except.ok (g2, rep) => encodeStage cfg g2 rep

/-- Stable storage: the destination artifact location and the temporary
write location. -/
structure Storage where
  dest : Option (List Tok)
  temp : Option (List Tok)
deriving DecidableEq

/-- Run one export against stable storage: on any component failure nothing
reaches the destination; on success the artifact is written to the temporary
location and renamed onto the destination; an input-output failure during
the write leaves the destination unchanged. -/
def exportToStorage (ioFail : Bool) (cfg : ExportConfig) (g : Graph)
    (st : Storage) : Storage × Except ExportError ExportReport :=
  match orchestrate cfg g with
  | Except.error e => (st, Except.error e)
  | Except.ok (art, rep) =>
      if ioFail then ({ st with temp := some art }, Except.error ExportError.encodingIOFailure)
      else ({ dest := some art, temp := none }, Except.ok rep)

/-! ### Concrete example graphs and configurations, used by the witnesses -/

/-- A one-node graph: a relu applied to the graph input; already a pipeline
fixpoint. -/
def gRelu : Graph :=
  { nodes := [⟨0, OpKind.relu, [0], [1], []⟩],
    inputs := [(0, ⟨DType.float32, [Dim.concrete 1]⟩)],
    outputs := [1],
    consts := [] }

/-- The shape environment the generalizer derives for gRelu with no dynamic
axes requested. -/
def envRelu : ShapeEnv :=
  [(0, [Dim.concrete 1]), (1, [Dim.concrete 1])]

/-- The multiply node of the constant-folding scenario. -/
def mulNode : Node := ⟨2, OpKind.mul, [0, 1], [2], []⟩

/-- The constant-folding scenario graph: a constant 2 multiplied by a
constant 3. -/
def g26 : Graph :=
  { nodes := [mulNode],
    inputs := [],
    outputs := [2],
    consts := [(0, ⟨[1], [2]⟩), (1, ⟨[1], [3]⟩)] }

/-- The folded output of the scenario: the single constant 6. -/
def foldedSix : List (Nat × ConstTensor) := [(2, ⟨[1], [6]⟩)]

/-- The dynamic-axis scenario graph: input of shape 1 by 3 by 640 by 640
feeding a data-dependent operator. -/
def g640 : Graph :=
  { nodes := [⟨0, OpKind.dataDep, [0], [1], []⟩],
    inputs := [(0, ⟨DType.float32,
      [Dim.concrete 1, Dim.concrete 3, Dim.concrete 640, Dim.concrete 640]⟩)],
    outputs := [1],
    consts := [] }

/-- The dynamic-axis configuration of the scenario: input 0, axis 0, named
batch. -/
def cfgBatch : DynAxes := [((0, 0), "batch")]

/-- The generalized input shape of the scenario. -/
def shapeBatch : Shape :=
  [Dim.sym "batch", Dim.concrete 3, Dim.concrete 640, Dim.concrete 640]

/-- The conflicting-constraint scenario graph: the dynamic batch axis is
later forced to the concrete value 5 by a reshape with a literal constant. -/
def gConf : Graph :=
  { nodes := [⟨0, OpKind.reshape, [0], [1],
      [("shape", AttrValue.intList [5, 3])]⟩],
    inputs := [(0, ⟨DType.float32, [Dim.concrete 1, Dim.concrete 3]⟩)],
    outputs := [1],
    consts := [] }

/-- The full operator set of the model, as a permissive target format. -/
def allKinds : Opset :=
  [OpKind.mul, OpKind.add, OpKind.relu, OpKind.reshape, OpKind.dataDep,
   OpKind.fusedMulAdd]

/-- A benign export configuration used by the witnesses. -/
def cfgGood : ExportConfig :=
  { dynamicAxes := [], simplify := true,
    maxFixpointIterations := defaultMaxFixpointIterations,
    targetOpset := allKinds, opsetVersion := 13 }

/-- An export configuration whose target format supports no operator. -/
def cfgEmptyOpset : ExportConfig :=
  { dynamicAxes := [], simplify := true,
    maxFixpointIterations := defaultMaxFixpointIterations,
    targetOpset := [], opsetVersion := 13 }

/-- The artifact the encoder produces for gRelu. -/
def artRelu : List Tok :=
  Tok.nat schemaVersion :: Tok.nat 13 :: encGraphBody gRelu

/-- Empty stable storage. -/
def stEmpty : Storage := { dest := none, temp := none }

/-- The generalized scenario graph: the batch axis has become symbolic. -/
def g640gen : Graph :=
  { g640 with inputs := [(0, ⟨DType.float32, shapeBatch⟩)] }

/-- The shape environment the generalizer infers for the scenario graph:
the data-dependent output degrades to rank-preserved unknown dimensions. -/
def env640 : ShapeEnv :=
  [(0, shapeBatch), (1, [Dim.unknown, Dim.unknown, Dim.unknown, Dim.unknown])]

/-- A data-dependent node used to witness shape degradation. -/
def ddNode : Node := ⟨5, OpKind.dataDep, [0], [1], []⟩

/-- The report of the successful witness export of gRelu. -/
def repGood : ExportReport :=
  { totalChanges := 0, fixpointWarning := false, finalNodeCount := 1,
    artifactSize := 19 }

/-! ## Pipeline lemmas -/

/-- The constant-folding pass never reports a zero change count as a
change. -/
theorem honest_constFold : HonestPass constFold := by
  intro g g' h
  simp only [constFold] at h
  split at h
  · exact PassResult.noConfusion h
  · rename_i hc
    injection h with h1 h2
    exact hc h2

/-- The redundant-node-elimination pass never reports a zero change count
as a change. -/
theorem honest_redundantElim : HonestPass redundantElim := by
  intro g g' h
  simp only [redundantElim] at h
  split at h
  · exact PassResult.noConfusion h
  · injection h with h1 h2
    exact Nat.one_ne_zero h2

/-- The operator-fusion pass never reports a zero change count as a
change. -/
theorem honest_opFusion : HonestPass opFusion := by
  intro g g' h
  simp only [opFusion] at h
  split at h
  · exact PassResult.noConfusion h
  · injection h with h1 h2
    exact Nat.one_ne_zero h2

/-- The dead-node-elimination pass never reports a zero change count as a
change. -/
theorem honest_deadElim : HonestPass deadElim := by
  intro g g' h
  simp only [deadElim] at h
  split at h
  · exact PassResult.noConfusion h
  · rename_i hc
    injection h with h1 h2
    have hle := List.length_filter_le
      (fun n => n.outputs.any (fun t => decide (t ∈ liveTensors g.nodes g.outputs))) g.nodes
    omega

/-- Every canonical pass is honest. -/
theorem canonical_honest : ∀ p ∈ canonicalPasses, HonestPass p := by
  intro p hp
  simp only [canonicalPasses, List.mem_cons, List.not_mem_nil, or_false] at hp
  rcases hp with rfl | rfl | rfl | rfl
  · exact honest_constFold
  · exact honest_redundantElim
  · exact honest_opFusion
  · exact honest_deadElim

/-- An honest pass reporting zero changes left the graph unchanged. -/
theorem toPair_eq_of_zero {p : Graph → PassResult} (hp : HonestPass p) (g : Graph)
    (h : (PassResult.toPair g (p g)).2 = 0) : PassResult.toPair g (p g) = (g, 0) := by
  cases hpg : p g with
  | noChange => simp [PassResult.toPair, hpg]
  | changed g' c =>
    rw [hpg] at h
    simp only [PassResult.toPair] at h
    subst h
    exact absurd hpg (hp g g')

/-- A pass sequence of honest passes reporting zero total changes left the
graph unchanged. -/
theorem runPasses_eq_of_zero (ps : List (Graph → PassResult))
    (hall : ∀ p ∈ ps, HonestPass p) :
    ∀ g, (runPasses ps g).2 = 0 → runPasses ps g = (g, 0) := by
  induction ps with
  | nil => intro g _; rfl
  | cons p ps ih =>
    intro g hz
    have hp : HonestPass p := hall p (List.mem_cons_self p ps)
    have hps : ∀ q ∈ ps, HonestPass q := fun q hq => hall q (List.mem_cons_of_mem p hq)
    simp only [runPasses] at hz ⊢
    have h1 : (PassResult.toPair g (p g)).2 = 0 := by omega
    have h2 : (runPasses ps (PassResult.toPair g (p g)).1).2 = 0 := by omega
    have e1 := toPair_eq_of_zero hp g h1
    rw [e1] at h2 ⊢
    have e2 := ih hps g h2
    rw [e2]
    simp

/-- When the fixpoint loop stops without a warning, the returned graph is a
true fixpoint of the full pass sequence. -/
theorem fixpointIter_stable : ∀ (n : Nat) (g : Graph),
    (fixpointIter canonicalPasses n g).2.2 = false →
    runPasses canonicalPasses (fixpointIter canonicalPasses n g).1 =
      ((fixpointIter canonicalPasses n g).1, 0) := by
  intro n
  induction n with
  | zero => intro g h; simp [fixpointIter] at h
  | succ k ih =>
    intro g h
    simp only [fixpointIter] at h ⊢
    by_cases hz : (runPasses canonicalPasses g).2 = 0
    · have e := runPasses_eq_of_zero canonicalPasses canonical_honest g hz
      simp only [hz, if_true] at h ⊢
      rw [e]
      simp [e]
    · simp only [hz, if_false] at h ⊢
      exact ih _ h

/-- On a fixpoint graph the loop stops after its first iteration with zero
total changes and no warning. -/
theorem fixpointIter_of_fixpoint (g : Graph) (hg : IsFixpoint g) :
    ∀ n, 0 < n → fixpointIter canonicalPasses n g = (g, 0, false) := by
  intro n hn
  cases n with
  | zero => exact absurd hn (lt_irrefl 0)
  | succ k =>
    simp only [fixpointIter]
    simp only [IsFixpoint] at hg
    rw [hg]
    simp

/-! ## Constant-folding lemmas -/

/-- A constant lookup is stable under registering further constants. -/
theorem lookupConst_append {cs : List (Nat × ConstTensor)} {t : Nat} {v : ConstTensor}
    (ext : List (Nat × ConstTensor)) (h : lookupConst cs t = some v) :
    lookupConst (cs ++ ext) t = some v := by
  simp only [lookupConst] at h ⊢
  rw [List.find?_append]
  cases hf : List.find? (fun p => decide (p.1 = t)) cs with
  | none => rw [hf] at h; simp at h
  | some p =>
    rw [hf] at h
    simp at h
    simp [Option.or, h]

/-- Looking up a list of constants is stable under registering further
constants. -/
theorem lookupAll_append {cs : List (Nat × ConstTensor)} (ext : List (Nat × ConstTensor)) :
    ∀ {ts : List Nat} {vs : List ConstTensor}, lookupAll cs ts = some vs →
      lookupAll (cs ++ ext) ts = some vs := by
  intro ts
  induction ts with
  | nil => intro vs h; simpa [lookupAll] using h
  | cons t ts ih =>
    intro vs h
    simp only [lookupAll] at h ⊢
    cases hl : lookupConst cs t with
    | none => rw [hl] at h; simp at h
    | some v =>
      rw [hl] at h
      cases ha : lookupAll cs ts with
      | none => rw [ha] at h; simp at h
      | some vs' =>
        rw [ha] at h
        rw [lookupConst_append ext hl, ih ha]
        exact h

/-- Node evaluation is stable under registering further constants. -/
theorem evalNode_append {cs : List (Nat × ConstTensor)} (ext : List (Nat × ConstTensor))
    {n : Node} {outs : List (Nat × ConstTensor)}
    (h : evalNode cs n = some outs) : evalNode (cs ++ ext) n = some outs := by
  simp only [evalNode] at h ⊢
  cases hl : lookupAll cs n.inputs with
  | none => rw [hl] at h; simp at h
  | some ins =>
    rw [hl] at h
    rw [lookupAll_append ext hl]
    exact h

/-- The constant-folding sweep only ever appends to the constant table. -/
theorem constFoldAux_consts_grow : ∀ (ns : List Node) (cs : List (Nat × ConstTensor)),
    ∃ ext, (constFoldAux ns cs).2.1 = cs ++ ext := by
  intro ns
  induction ns with
  | nil => intro cs; exact ⟨[], by simp [constFoldAux]⟩
  | cons n rest ih =>
    intro cs
    cases he : evalNode cs n with
    | some newcs =>
      obtain ⟨ext, hext⟩ := ih (cs ++ newcs)
      refine ⟨newcs ++ ext, ?_⟩
      simp only [constFoldAux, he]
      simp [hext]
    | none =>
      obtain ⟨ext, hext⟩ := ih cs
      refine ⟨ext, ?_⟩
      simp only [constFoldAux, he]
      simp [hext]

/-- A node evaluable over the initial constants does not survive the
constant-folding sweep, whatever constants were registered meanwhile. -/
theorem constFoldAux_not_mem : ∀ (ns : List Node) (cs ext : List (Nat × ConstTensor))
    {n : Node} {outs : List (Nat × ConstTensor)},
    evalNode cs n = some outs → n ∉ (constFoldAux ns (cs ++ ext)).1 := by
  intro ns
  induction ns with
  | nil => intro cs ext n outs _; simp [constFoldAux]
  | cons m rest ih =>
    intro cs ext n outs h
    cases he : evalNode (cs ++ ext) m with
    | some newcs =>
      simp only [constFoldAux, he]
      have hr := ih cs (ext ++ newcs) h
      simpa [List.append_assoc] using hr
    | none =>
      simp only [constFoldAux, he]
      have hne : n ≠ m := by
        intro hnm
        rw [hnm] at h
        have hmono := evalNode_append ext h
        rw [hmono] at he
        exact Option.noConfusion he
      have hrest := ih cs ext h
      simp only [List.mem_cons, not_or]
      exact ⟨hne, hrest⟩

/-- The outputs of a node evaluable over the initial constants are
registered by the constant-folding sweep. -/
theorem constFoldAux_registers : ∀ (ns : List Node) (cs ext : List (Nat × ConstTensor))
    {n : Node} {outs : List (Nat × ConstTensor)},
    n ∈ ns → evalNode cs n = some outs →
    ∀ pr ∈ outs, pr ∈ (constFoldAux ns (cs ++ ext)).2.1 := by
  intro ns
  induction ns with
  | nil => intro cs ext n outs hmem _ pr _; exact absurd hmem (List.not_mem_nil n)
  | cons m rest ih =>
    intro cs ext n outs hmem h pr hpr
    cases he : evalNode (cs ++ ext) m with
    | some newcs =>
      simp only [constFoldAux, he]
      rcases List.mem_cons.mp hmem with hnm | hmemrest
      · subst hnm
        have hext := evalNode_append ext h
        rw [hext] at he
        injection he with hoe
        subst hoe
        obtain ⟨ext2, hext2⟩ := constFoldAux_consts_grow rest (cs ++ ext ++ outs)
        simp only [hext2]
        exact List.mem_append_left _ (List.mem_append_right _ hpr)
      · have hr := ih cs (ext ++ newcs) hmemrest h pr hpr
        simpa [List.append_assoc] using hr
    | none =>
      simp only [constFoldAux, he]
      rcases List.mem_cons.mp hmem with hnm | hmemrest
      · exfalso
        subst hnm
        have hmono := evalNode_append ext h
        rw [hmono] at he
        exact Option.noConfusion he
      · exact ih cs ext hmemrest h pr hpr

/-- An evaluable node makes the constant-folding change count positive. -/
theorem constFoldAux_count_pos : ∀ (ns : List Node) (cs ext : List (Nat × ConstTensor))
    {n : Node} {outs : List (Nat × ConstTensor)},
    n ∈ ns → evalNode cs n = some outs → 0 < (constFoldAux ns (cs ++ ext)).2.2 := by
  intro ns
  induction ns with
  | nil => intro cs ext n outs hmem _; exact absurd hmem (List.not_mem_nil n)
  | cons m rest ih =>
    intro cs ext n outs hmem h
    cases he : evalNode (cs ++ ext) m with
    | some newcs =>
      simp only [constFoldAux, he]
      omega
    | none =>
      simp only [constFoldAux, he]
      rcases List.mem_cons.mp hmem with hnm | hmemrest
      · exfalso
        subst hnm
        have hmono := evalNode_append ext h
        rw [hmono] at he
        exact Option.noConfusion he
      · exact ih cs ext hmemrest h

/-! ## Encoder round-trip lemmas -/

/-- Decoding inverts the natural-number encoder. -/
theorem decNat_enc (n : Nat) (rest : List Tok) : decNat (encNat n ++ rest) = some (n, rest) := rfl

/-- Decoding inverts the integer encoder. -/
theorem decInt_enc (i : Int) (rest : List Tok) : decInt (encInt i ++ rest) = some (i, rest) := rfl

/-- Decoding inverts the string encoder. -/
theorem decStr_enc (s : String) (rest : List Tok) : decStr (encStr s ++ rest) = some (s, rest) := rfl

/-- Decoding inverts the dimension encoder. -/
theorem decDim_enc (d : Dim) (rest : List Tok) : decDim (encDim d ++ rest) = some (d, rest) := by
  cases d <;> rfl

/-- Decoding inverts the data-type encoder. -/
theorem decDType_enc (d : DType) (rest : List Tok) :
    decDType (encDType d ++ rest) = some (d, rest) := by
  cases d <;> rfl

/-- Decoding inverts the operator-kind encoder. -/
theorem decOpKind_enc (k : OpKind) (rest : List Tok) :
    decOpKind (encOpKind k ++ rest) = some (k, rest) := by
  cases k <;> rfl

/-- Decoding a counted run inverts elementwise encoding. -/
theorem decCount_enc {α : Type} (enc : α → List Tok)
    (dec : List Tok → Option (α × List Tok))
    (h : ∀ x rest, dec (enc x ++ rest) = some (x, rest)) :
    ∀ (xs : List α) (rest : List Tok),
      decCount dec xs.length ((xs.map enc).flatten ++ rest) = some (xs, rest) := by
  intro xs
  induction xs with
  | nil => intro rest; simp [decCount]
  | cons x xs ih =>
    intro rest
    simp only [List.map_cons, List.flatten_cons, List.length_cons, List.append_assoc, decCount]
    simp only [h, ih]

/-- Decoding a length-prefixed list inverts the list encoder. -/
theorem decList_enc {α : Type} (enc : α → List Tok)
    (dec : List Tok → Option (α × List Tok))
    (h : ∀ x rest, dec (enc x ++ rest) = some (x, rest))
    (xs : List α) (rest : List Tok) :
    decList dec (encList enc xs ++ rest) = some (xs, rest) := by
  simp only [encList, List.cons_append, decList]
  exact decCount_enc enc dec h xs rest

/-- Decoding inverts the tensor-type encoder. -/
theorem decTensorType_enc (ty : TensorType) (rest : List Tok) :
    decTensorType (encTensorType ty ++ rest) = some (ty, rest) := by
  cases ty with
  | mk d sh =>
    simp only [encTensorType, List.append_assoc, decTensorType]
    simp only [decDType_enc, decList_enc encDim decDim decDim_enc]

/-- Decoding inverts the attribute-value encoder. -/
theorem decAttrValue_enc (v : AttrValue) (rest : List Tok) :
    decAttrValue (encAttrValue v ++ rest) = some (v, rest) := by
  cases v with
  | scalar i => rfl
  | intList l =>
    simp only [encAttrValue, List.cons_append, decAttrValue]
    simp only [decList_enc encInt decInt decInt_enc]

/-- Decoding inverts the named-attribute encoder. -/
theorem decAttr_enc (p : String × AttrValue) (rest : List Tok) :
    decAttr (encAttr p ++ rest) = some (p, rest) := by
  cases p with
  | mk s v =>
    simp only [encAttr, List.append_assoc, decAttr]
    simp only [decStr_enc, decAttrValue_enc]

/-- Decoding inverts the node encoder. -/
theorem decNode_enc (n : Node) (rest : List Tok) :
    decNode (encNode n ++ rest) = some (n, rest) := by
  cases n with
  | mk i k ins outs ats =>
    simp only [encNode, List.append_assoc, decNode]
    simp only [decNat_enc, decOpKind_enc, decList_enc encNat decNat decNat_enc,
      decList_enc encAttr decAttr decAttr_enc]

/-- Decoding inverts the graph-input encoder. -/
theorem decInput_enc (p : Nat × TensorType) (rest : List Tok) :
    decInput (encInput p ++ rest) = some (p, rest) := by
  cases p with
  | mk t ty =>
    simp only [encInput, List.append_assoc, decInput]
    simp only [decNat_enc, decTensorType_enc]

/-- Decoding inverts the constant encoder. -/
theorem decConst_enc (p : Nat × ConstTensor) (rest : List Tok) :
    decConst (encConst p ++ rest) = some (p, rest) := by
  rcases p with ⟨t, sh, d⟩
  simp only [encConst, List.append_assoc, decConst]
  simp only [decNat_enc, decList_enc encNat decNat decNat_enc, decList_enc encInt decInt decInt_enc]

/-- Parsing inverts the graph-body serializer. -/
theorem decGraphBody_enc (g : Graph) (rest : List Tok) :
    decGraphBody (encGraphBody g ++ rest) = some (g, rest) := by
  cases g with
  | mk ns ins outs cs =>
    simp only [encGraphBody, List.append_assoc, decGraphBody]
    simp only [decList_enc encNode decNode decNode_enc, decList_enc encInput decInput decInput_enc,
      decList_enc encNat decNat decNat_enc, decList_enc encConst decConst decConst_enc]

/-- A successful encode decodes back to the very graph that was encoded. -/
theorem decodeGraph_encodeGraph {os : Opset} {osv : Nat} {g : Graph} {a : List Tok}
    (h : encodeGraph os osv g = Except.ok a) : decodeGraph a = some g := by
  simp only [encodeGraph] at h
  cases hu : unsupportedKinds os g with
  | nil =>
    rw [hu] at h
    injection h with ha
    subst ha
    simp only [decodeGraph, if_pos rfl]
    have hb := decGraphBody_enc g []
    rw [List.append_nil] at hb
    rw [hb]
    simp
  | cons k ks =>
    rw [hu] at h
    exact Except.noConfusion h

/-! ## Claim C1 -/

/-- C1: the simplification pass pipeline terminates on every input graph:
it repeats the full ordered pass sequence until an iteration produces zero
total changes or the configured iteration cap (default 100) is exhausted;
when the loop stops without a warning the returned graph is a true fixpoint
of the pass sequence, and the cap overrun only sets the warning flag while
the last graph still flows, unconditionally, into the encoding stage of the
orchestrator rather than failing the export. -/
theorem pipeline_terminates_at_fixpoint_or_cap (n : Nat) (g : Graph)
    (cfg : ExportConfig) (g0 g1 : Graph) (env : ShapeEnv) :
    ((fixpointIter canonicalPasses n g).2.2 = false →
      runPasses canonicalPasses (fixpointIter canonicalPasses n g).1 =
        ((fixpointIter canonicalPasses n g).1, 0)) ∧
    defaultMaxFixpointIterations = 100 ∧
    (generalizeStage cfg.dynamicAxes g0 = Except.ok (g1, env) →
      cfg.simplify = true →
      orchestrate cfg g0 =
        encodeStage cfg (simplifyStage cfg.maxFixpointIterations g1).1
          (simplifyStage cfg.maxFixpointIterations g1).2) := by
  refine ⟨fixpointIter_stable n g, rfl, ?_⟩
  intro h1 h2
  rcases hs : simplifyStage cfg.maxFixpointIterations g1 with ⟨g2, rep⟩
  simp [orchestrate, stagedGraph, h1, h2, hs]

/-- Witness for C1 at a concrete graph and configuration: the loop stops
without a warning on the one-node relu graph and its result is stable, and
the orchestrator hands the pipeline result to the encoder. -/
theorem pipeline_terminates_at_fixpoint_or_cap_witness :
    runPasses canonicalPasses (fixpointIter canonicalPasses 100 gRelu).1 =
      ((fixpointIter canonicalPasses 100 gRelu).1, 0) ∧
    orchestrate cfgGood gRelu =
      encodeStage cfgGood (simplifyStage cfgGood.maxFixpointIterations gRelu).1
        (simplifyStage cfgGood.maxFixpointIterations gRelu).2 :=
  ⟨(pipeline_terminates_at_fixpoint_or_cap 100 gRelu cfgGood gRelu gRelu envRelu).1
      (by decide),
   (pipeline_terminates_at_fixpoint_or_cap 100 gRelu cfgGood gRelu gRelu envRelu).2.2
      (by decide) rfl⟩

/-! ## Claim C2 -/

/-- C2: for every graph already at a fixpoint of the simplification pass
pipeline, the pipeline reports zero total changes on it, and running the
pipeline a second time on its output again yields zero changes and no
warning: the pipeline is idempotent at fixpoints. -/
theorem pipeline_idempotent_at_fixpoint (n : Nat) (g : Graph)
    (hg : IsFixpoint g) (hn : 0 < n) :
    (simplifyStage n g).2.totalChanges = 0 ∧
    simplifyStage n ((simplifyStage n g).1) = ((simplifyStage n g).1, ⟨0, false⟩) := by
  have e := fixpointIter_of_fixpoint g hg n hn
  constructor
  · simp [simplifyStage, e]
  · simp [simplifyStage, e]

/-- Witness for C2: the one-node relu graph is a fixpoint and both pipeline
runs on it report zero changes. -/
theorem pipeline_idempotent_at_fixpoint_witness :
    (simplifyStage 100 gRelu).2.totalChanges = 0 ∧
    simplifyStage 100 ((simplifyStage 100 gRelu).1) =
      ((simplifyStage 100 gRelu).1, ⟨0, false⟩) :=
  pipeline_idempotent_at_fixpoint 100 gRelu (by unfold IsFixpoint; decide) (by decide)

/-! ## Claim C5 -/

/-- C5: constant folding removes every node whose inputs all resolve in the
registered constant table and whose evaluation under the shared runtime
kernel succeeds, and registers the evaluated outputs as new constants,
reporting the change with a positive count; the arithmetic is the runtime
kernel itself, since evalNode is defined through kernelSem. -/
theorem constFold_evaluates_const_nodes (g : Graph) (n : Node)
    (outs : List (Nat × ConstTensor)) (hmem : n ∈ g.nodes)
    (heval : evalNode g.consts n = some outs) :
    ∃ g' c, constFold g = PassResult.changed g' c ∧ 0 < c ∧
      n ∉ g'.nodes ∧ ∀ pr ∈ outs, pr ∈ g'.consts := by
  have hpos := constFoldAux_count_pos g.nodes g.consts [] hmem heval
  have hnot := constFoldAux_not_mem g.nodes g.consts [] heval
  have hreg := constFoldAux_registers g.nodes g.consts [] hmem heval
  rw [List.append_nil] at hpos hnot hreg
  have hc : constFold g = PassResult.changed { g with nodes := (constFoldAux g.nodes g.consts).1, consts := (constFoldAux g.nodes g.consts).2.1 } (constFoldAux g.nodes g.consts).2.2 := by
    simp only [constFold]
    rw [if_neg (by omega)]
  exact ⟨_, _, hc, hpos, hnot, hreg⟩

/-- Witness for C5: folding the graph that multiplies the constant 2 by the
constant 3 removes the multiply node and registers the single constant 6,
exactly the value the runtime kernel computes. -/
theorem constFold_evaluates_const_nodes_witness :
    ∃ g' c, constFold g26 = PassResult.changed g' c ∧ 0 < c ∧
      mulNode ∉ g'.nodes ∧ ∀ pr ∈ foldedSix, pr ∈ g'.consts :=
  constFold_evaluates_const_nodes g26 mulNode foldedSix (by decide) (by decide)

/-! ## Claim C3 -/

/-- C3: for every finalized graph, decoding the format encoder's output
reproduces the encoded graph itself, with the same nodes, edges, shapes and
constants; identifiers are kept verbatim, so the stable renumbering of the
round trip is the identity. -/
theorem encode_decode_round_trip (os : Opset) (osv : Nat) (g : Graph) (a : List Tok)
    (h : encodeGraph os osv g = Except.ok a) : decodeGraph a = some g :=
  decodeGraph_encodeGraph h

/-- Witness for C3: the artifact of the one-node relu graph decodes back to
that graph. -/
theorem encode_decode_round_trip_witness : decodeGraph artRelu = some gRelu :=
  encode_decode_round_trip allKinds 13 gRelu artRelu rfl

/-! ## Claim C4 -/

/-- C4: the format encoder is a pure function of the graph and
configuration: its output is independent of the ambient process state a
stateful implementation could consult (global numbering counter, iteration
seed), so two encodes of the same graph under the same configuration
produce byte-identical artifacts. -/
theorem encode_deterministic (amb1 amb2 : AmbientState) (os : Opset) (osv : Nat)
    (g : Graph) :
    encodeGraphRun amb1 os osv g = encodeGraphRun amb2 os osv g ∧
    encodeGraphRun amb1 os osv g = encodeGraph os osv g :=
  ⟨rfl, rfl⟩

/-! ## Claim C6 -/

/-- C6: with input shape 1 by 3 by 640 by 640 and a dynamic-axis request
mapping input 0 axis 0 to the name batch, the generalized graph's input
shape is batch by 3 by 640 by 640, and binding batch to 4 at load time
type-checks to the concrete shape 4 by 3 by 640 by 640; a data-dependent
operator degrades its output shape to rank-preserved unknown dimensions,
and the generalizer's only failure mode is the conflicting-constraint
error, so the degradation never fails the export. -/
theorem dynamic_axes_scenario :
    generalizeStage cfgBatch g640 = Except.ok (g640gen, env640) ∧
    bindShape [("batch", 4)] shapeBatch = some [4, 3, 640, 640] ∧
    (∀ (env : ShapeEnv) (n : Node), n.kind = OpKind.dataDep →
      inferNode env n = ((firstInputShape env n).map (fun _ => Dim.unknown), [])) ∧
    (∀ (cfg : DynAxes) (g : Graph) (e : ExportError),
      generalizeStage cfg g = Except.error e → e = ExportError.unsupportedDynamicAxis) := by
  refine ⟨by decide, by decide, ?_, ?_⟩
  · intro env n hk
    simp [inferNode, hk]
  · intro cfg g e h
    simp only [generalizeStage] at h
    split at h
    · injection h with h1
      exact h1.symm
    · exact Except.noConfusion h

/-- Witness for C6's quantified parts at concrete inputs: the
data-dependent node degrades the scenario shape to four unknown
dimensions, and the conflicting scenario's error is the dynamic-axis
one. -/
theorem dynamic_axes_scenario_witness :
    inferNode [(0, shapeBatch)] ddNode =
      ((firstInputShape [(0, shapeBatch)] ddNode).map (fun _ => Dim.unknown), []) ∧
    (firstInputShape [(0, shapeBatch)] ddNode).map (fun _ => Dim.unknown) =
      [Dim.unknown, Dim.unknown, Dim.unknown, Dim.unknown] ∧
    ExportError.unsupportedDynamicAxis = ExportError.unsupportedDynamicAxis :=
  ⟨dynamic_axes_scenario.2.2.1 [(0, shapeBatch)] ddNode rfl, by decide,
   dynamic_axes_scenario.2.2.2 cfgBatch gConf ExportError.unsupportedDynamicAxis (by decide)⟩

/-! ## Claim C7 -/

/-- An operator kind is reported unsupported exactly when a node of the
graph carries it and the target operator set lacks it. -/
theorem mem_unsupportedKinds {os : Opset} {g : Graph} {k : OpKind} :
    k ∈ unsupportedKinds os g ↔ (∃ n ∈ g.nodes, n.kind = k) ∧ k ∉ os := by
  simp [unsupportedKinds, List.mem_filter, List.mem_map]

/-- C7: the format encoder raises the unsupported-operator error exactly
when some node's operator kind has no mapping in the target operator set;
it never silently drops such a node, since a successful encode decodes back
to the whole graph; and an encoder failure aborts the orchestrator with the
very same error. -/
theorem encoder_unsupported_operator (os : Opset) (osv : Nat) (g : Graph) :
    ((∃ n ∈ g.nodes, n.kind ∉ os) ↔
      ∃ k, encodeGraph os osv g = Except.error (ExportError.unsupportedOperator k)) ∧
    (∀ a, encodeGraph os osv g = Except.ok a → decodeGraph a = some g) ∧
    (∀ (cfg : ExportConfig) (g0 g2 : Graph) (rep : SimpReport) (e : ExportError),
      stagedGraph cfg g0 = Except.ok (g2, rep) →
      encodeGraph cfg.targetOpset cfg.opsetVersion g2 = Except.error e →
      orchestrate cfg g0 = Except.error e) := by
  refine ⟨?_, ?_, ?_⟩
  · constructor
    · rintro ⟨n, hmem, hk⟩
      have hin : n.kind ∈ unsupportedKinds os g :=
        mem_unsupportedKinds.mpr ⟨⟨n, hmem, rfl⟩, hk⟩
      cases hu : unsupportedKinds os g with
      | nil => rw [hu] at hin; exact absurd hin (List.not_mem_nil _)
      | cons k ks => exact ⟨k, by simp [encodeGraph, hu]⟩
    · rintro ⟨k, hk⟩
      cases hu : unsupportedKinds os g with
      | nil => simp [encodeGraph, hu] at hk
      | cons k' ks =>
        have hin : k' ∈ unsupportedKinds os g := by rw [hu]; exact List.mem_cons_self k' ks
        obtain ⟨⟨n, hmem, hkind⟩, hnotos⟩ := mem_unsupportedKinds.mp hin
        exact ⟨n, hmem, hkind ▸ hnotos⟩
  · intro a h
    exact decodeGraph_encodeGraph h
  · intro cfg g0 g2 rep e h1 h2
    simp [orchestrate, h1, encodeStage, h2]

/-- Witness for C7: against an empty target operator set the relu graph is
rejected with the unsupported-operator error, and the orchestrator aborts
with the error the encoder raised. -/
theorem encoder_unsupported_operator_witness :
    (∃ k, encodeGraph ([] : Opset) 13 gRelu =
      Except.error (ExportError.unsupportedOperator k)) ∧
    orchestrate cfgEmptyOpset gRelu =
      Except.error (ExportError.unsupportedOperator OpKind.relu) :=
  ⟨(encoder_unsupported_operator [] 13 gRelu).1.mp
      ⟨⟨0, OpKind.relu, [0], [1], []⟩, by decide, by decide⟩,
   (encoder_unsupported_operator [] 13 gRelu).2.2 cfgEmptyOpset gRelu gRelu ⟨0, false⟩
      (ExportError.unsupportedOperator OpKind.relu) (by decide) (by decide)⟩

/-! ## Claim C8 -/

/-- C8: the export is atomic with respect to the destination: on any
component failure, including a storage write failure, the destination is
unchanged, and only on success does the rename install the complete
artifact, which is exactly the orchestrator's encoded output paired with
the returned report. -/
theorem export_atomic (ioFail : Bool) (cfg : ExportConfig) (g : Graph) (st : Storage) :
    (∀ e, (exportToStorage ioFail cfg g st).2 = Except.error e →
      (exportToStorage ioFail cfg g st).1.dest = st.dest) ∧
    (∀ rep, (exportToStorage ioFail cfg g st).2 = Except.ok rep →
      ∃ art, orchestrate cfg g = Except.ok (art, rep) ∧
        (exportToStorage ioFail cfg g st).1.dest = some art) := by
  cases ho : orchestrate cfg g with
  | error e0 =>
    constructor
    · intro e h
      simp [exportToStorage, ho]
    · intro rep h
      simp [exportToStorage, ho] at h
  | ok p =>
    rcases p with ⟨art, rep0⟩
    cases ioFail with
    | true =>
      constructor
      · intro e h
        simp [exportToStorage, ho]
      · intro rep h
        simp [exportToStorage, ho] at h
    | false =>
      constructor
      · intro e h
        simp [exportToStorage, ho] at h
      · intro rep h
        have h2 : rep0 = rep := by simpa [exportToStorage, ho] using h
        subst h2
        exact ⟨art, rfl, by simp [exportToStorage, ho]⟩

/-- Witness for C8: a write failure leaves the empty destination empty,
and a successful export installs exactly the orchestrator's artifact. -/
theorem export_atomic_witness :
    (exportToStorage true cfgGood gRelu stEmpty).1.dest = stEmpty.dest ∧
    ∃ art, orchestrate cfgGood gRelu = Except.ok (art, repGood) ∧
      (exportToStorage false cfgGood gRelu stEmpty).1.dest = some art :=
  ⟨(export_atomic true cfgGood gRelu stEmpty).1 ExportError.encodingIOFailure (by decide),
   (export_atomic false cfgGood gRelu stEmpty).2 repGood (by decide)⟩

/-! ## Claim C9 -/

/-- Conflict detection is exactly the existence of one symbolic name bound
to two disagreeing concrete values. -/
theorem hasConflict_iff (cs : List (String × Nat)) :
    hasConflict cs = true ↔ ∃ s v1 v2, (s, v1) ∈ cs ∧ (s, v2) ∈ cs ∧ v1 ≠ v2 := by
  simp only [hasConflict, List.any_eq_true, decide_eq_true_eq]
  constructor
  · rintro ⟨a, ha, b, hb, h1, h2⟩
    refine ⟨a.1, a.2, b.2, by simpa using ha, ?_, h2⟩
    rw [h1]
    simpa using hb
  · rintro ⟨s, v1, v2, h1, h2, hne⟩
    exact ⟨(s, v1), h1, (s, v2), h2, rfl, hne⟩

/-- C9: the shape generalizer fails with the unsupported-dynamic-axis error
exactly when unifying all derived expressions for one symbolic axis name
yields two disagreeing concrete values, i.e. when the operator graph forces
a user-requested dynamic dimension to conflicting constants. -/
theorem generalize_conflict_iff (cfg : DynAxes) (g : Graph) :
    generalizeStage cfg g = Except.error ExportError.unsupportedDynamicAxis ↔
    ∃ s v1 v2, (s, v1) ∈ allConstraints cfg g ∧ (s, v2) ∈ allConstraints cfg g ∧
      v1 ≠ v2 := by
  rw [← hasConflict_iff]
  by_cases hc : hasConflict (allConstraints cfg g) = true
  · simp [generalizeStage, hc]
  · simp only [Bool.not_eq_true] at hc
    simp [generalizeStage, hc]

/-- Witness for C9: the scenario in which the traced batch value 1 is later
forced to the concrete value 5 by a reshape with a literal constant is
rejected with the unsupported-dynamic-axis error. -/
theorem generalize_conflict_iff_witness :
    generalizeStage cfgBatch gConf = Except.error ExportError.unsupportedDynamicAxis :=
  (generalize_conflict_iff cfgBatch gConf).mpr
    ⟨"batch", 1, 5, by decide, by decide, by decide⟩

/-! ## Claim C10 -/

/-- C10: every run of the script performs the same fixed export: the trace
is independent of command-line arguments, environment and standard input,
the model is loaded from the hard-coded weight file yolov8n.pt, and export
is invoked exactly once with the constant arguments onnx format, dynamic
axes requested and simplification requested. -/
theorem script_fixed_export (argv argv' : List String)
    (environ environ' : List (String × String)) (stdin stdin' : List String) :
    scriptRun argv environ stdin = scriptRun argv' environ' stdin' ∧
    scriptRun argv environ stdin =
      [ScriptEvent.loadModel "yolov8n.pt",
       ScriptEvent.exportModel ⟨"onnx", true, true⟩] ∧
    ((scriptRun argv environ stdin).filter isExportEvent).length = 1 :=
  ⟨rfl, rfl, rfl⟩

end TLC


